import Mathlib

/-!
Verification of the multi-agent coordination core (memory store, message bus,
role negotiation, workflow orchestrator) via a shallow embedding of the
Python sources in `app/core/` (`memory.py`, `communication.py`,
`role_negotiation.py`, `orchestrator.py`).

Modelling conventions:
* Python dicts become association lists (`alookup`/`aset`/`adel`), which keep
  insertion order like CPython dicts; sets of memory ids become duplicate-free
  `List Nat` with insertion-order-preserving `sinsert`/`sunion`.
* Python floats become `ℚ` (no claim here depends on rounding behaviour of
  binary floating point).
* `datetime` values become `Nat` timestamps; `datetime.now()` is passed in as
  an explicit `now` argument.
* `uuid4` identifiers become fresh naturals drawn from a counter in the state.
* Code that mutates objects in place is written in explicit state-passing
  style.
-/

namespace Empire

/-- Python dict lookup `d.get(k)` on an association list: first entry wins. -/
def alookup {κ α : Type} [DecidableEq κ] : List (κ × α) → κ → Option α
  | [], _ => none
  | (k', v) :: rest, k => if k' = k then some v else alookup rest k

/-- Python dict write `d[k] = v`: overwrite the first entry with key `k`
in place, or append a new entry (CPython dicts preserve insertion order). -/
def aset {κ α : Type} [DecidableEq κ] : List (κ × α) → κ → α → List (κ × α)
  | [], k, v => [(k, v)]
  | (k', v') :: rest, k, v =>
    if k' = k then (k, v) :: rest else (k', v') :: aset rest k v

/-- Python dict delete `del d[k]`: drop the entries with key `k`. -/
def adel {κ α : Type} [DecidableEq κ] : List (κ × α) → κ → List (κ × α)
  | [], _ => []
  | (k', v) :: rest, k =>
    if k' = k then adel rest k else (k', v) :: adel rest k

/-- Python `set.add`: insert if absent (sets modelled as duplicate-free lists). -/
def sinsert (l : List Nat) (x : Nat) : List Nat :=
  if x ∈ l then l else l ++ [x]

/-- Python `set.update`: add every element of `b` to `a`. -/
def sunion (a b : List Nat) : List Nat :=
  b.foldl sinsert a

/-- Python `set.discard`: remove the element if present. -/
def sremove (l : List Nat) (x : Nat) : List Nat :=
  l.filter (fun y => decide (y ≠ x))

/-- Does the second list start with the first one? (used for substring tests). -/
def leadEq : List Char → List Char → Bool
  | [], _ => true
  | _ :: _, [] => false
  | a :: as, b :: bs => a == b && leadEq as bs

/-- Does `hay` contain `needle` as a contiguous run? This models the Python
substring test `needle in hay`. -/
def hasRun (needle : List Char) : List Char → Bool
  | [] => leadEq needle []
  | c :: rest => leadEq needle (c :: rest) || hasRun needle rest

/-- Python `needle in hay` on strings. -/
def strHasSub (needle hay : String) : Bool :=
  hasRun needle.toList hay.toList

/-- Python `str.lower()`, per character (the tags in this codebase are
ASCII). -/
def strLower (s : String) : String :=
  String.mk (s.toList.map Char.toLower)

/-- Stable insertion step: place `x` before the first element `y` with
`le x y` (so an element keeps its relative position among equals). -/
def insertStable {α : Type} (le : α → α → Bool) (x : α) : List α → List α
  | [] => [x]
  | y :: ys => if le x y then x :: y :: ys else y :: insertStable le x ys

/-- Stable insertion sort. Python's `list.sort` is a stable sort, and any
two stable sorts under the same key agree on the output list, so this embeds
`sort(key=...)` exactly. -/
def sortStable {α : Type} (le : α → α → Bool) : List α → List α
  | [] => []
  | x :: xs => insertStable le x (sortStable le xs)

/-- Shallow embedding of Python runtime values, as far as the claims need
them: `None`, booleans, ints, floats (as `ℚ`), strings, lists and
string-keyed dicts. -/
inductive PyVal where
  | none
  | bool (b : Bool)
  | int (n : Int)
  | float (q : ℚ)
  | str (s : String)
  | list (xs : List PyVal)
  | dict (xs : List (String × PyVal))

/-- Embeds `MemoryItem` (memory.py:14-34): one stored fact. Context values are
modelled by their `str()` images, matching how they are used to build the
`f"{key}:{value}"` index keys. -/
structure MemoryItem where
  id : Nat
  content : PyVal
  source : String
  expiration : Option Nat
  importance : ℚ
  tags : List String
  context : List (String × String)

/-- Embeds `MemoryItem.is_expired` (memory.py:26-30): `datetime.now() > expiration`. -/
def MemoryItem.isExpired (m : MemoryItem) (now : Nat) : Bool :=
  match m.expiration with
  | Option.none => false
  | some t => decide (t < now)

/-- Embeds `AgentMemory` state (memory.py:62-71): item map, capacity, decay rate,
tag index and context index, plus the id counter standing in for `uuid4`. -/
structure AgentMemory where
  memories : List (Nat × MemoryItem)
  maxSize : Nat
  decayRate : ℚ
  tagsIndex : List (String × List Nat)
  contextIndex : List (String × List Nat)
  nextId : Nat

/-- Embeds `AgentMemory.__init__` (memory.py:65-71). -/
def AgentMemory.emptyMem (maxSize : Nat) : AgentMemory :=
  ⟨[], maxSize, 99/100, [], [], 0⟩

/-- The `f"{key}:{value}"` context-index key (memory.py:98). -/
def contextKey (kv : String × String) : String :=
  kv.1 ++ ":" ++ kv.2

/-- Embeds `AgentMemory.forget` (memory.py:242-261): drop the item and discard its id
from the index entries of its tags and context pairs (`set.discard` leaves
the — possibly now empty — index entry in place). -/
def AgentMemory.forget (st : AgentMemory) (id : Nat) : Bool × AgentMemory :=
  match alookup st.memories id with
  | Option.none => (false, st)
  | some m =>
    let tIdx := m.tags.foldl (fun idx tag =>
      match alookup idx tag with
      | some ids => aset idx tag (sremove ids id)
      | Option.none => idx) st.tagsIndex
    let cIdx := m.context.foldl (fun idx kv =>
      match alookup idx (contextKey kv) with
      | some ids => aset idx (contextKey kv) (sremove ids id)
      | Option.none => idx) st.contextIndex
    (true, { st with memories := adel st.memories id,
                     tagsIndex := tIdx, contextIndex := cIdx })

/-- Embeds `AgentMemory._forget_least_important` (memory.py:272-283): stable-sort the
items by importance ascending and forget the first `max(1, 5% of capacity)`
of them. Python computes `int(max_size * 0.05)` with binary floats; the model
uses exact `maxSize * 5 / 100`, which can differ by at most one for sizes
where the float product falls just below an integer — no claim depends on the
exact count, only on it being at least one. -/
def AgentMemory.forgetLeastImportant (st : AgentMemory) : AgentMemory :=
  if st.memories.isEmpty then st
  else
    let sorted := sortStable (fun a b => decide (a.importance ≤ b.importance))
      (st.memories.map Prod.snd)
    let removalCount := max 1 (st.maxSize * 5 / 100)
    (sorted.take removalCount).foldl (fun s m => (s.forget m.id).2) st

/-- Argument record for `AgentMemory.store`. -/
structure StoreArgs where
  content : PyVal
  source : String
  importance : ℚ
  tags : List String
  context : List (String × String)
  expiration : Option Nat

/-- Embeds `AgentMemory.store` (memory.py:73-103): evict when at or above capacity,
insert the fresh item, and record its id under each tag and context key. -/
def AgentMemory.store (st : AgentMemory) (a : StoreArgs) : Nat × AgentMemory :=
  let st := if st.maxSize ≤ st.memories.length then st.forgetLeastImportant else st
  let id := st.nextId
  let item : MemoryItem :=
    ⟨id, a.content, a.source, a.expiration, a.importance, a.tags, a.context⟩
  let tIdx := a.tags.foldl (fun idx tag =>
    match alookup idx tag with
    | some ids => aset idx tag (sinsert ids id)
    | Option.none => aset idx tag [id]) st.tagsIndex
  let cIdx := a.context.foldl (fun idx kv =>
    match alookup idx (contextKey kv) with
    | some ids => aset idx (contextKey kv) (sinsert ids id)
    | Option.none => aset idx (contextKey kv) [id]) st.contextIndex
  (id, { st with memories := aset st.memories id item,
                 tagsIndex := tIdx, contextIndex := cIdx,
                 nextId := st.nextId + 1 })

/-- Embeds `AgentMemory.retrieve` (memory.py:105-112): return the item if present and
not expired; lazily delete an expired item (indexes are left untouched). -/
def AgentMemory.retrieve (st : AgentMemory) (now : Nat) (id : Nat) :
    Option MemoryItem × AgentMemory :=
  match alookup st.memories id with
  | some m =>
    if m.isExpired now then
      (Option.none, { st with memories := adel st.memories id })
    else (some m, st)
  | Option.none => (Option.none, st)

/-- The per-query-tag match set (memory.py:121-124): the union over indexed
tags containing the query tag case-insensitively of their id sets. -/
def AgentMemory.tagMatches (st : AgentMemory) (tag : String) : List Nat :=
  st.tagsIndex.foldl (fun acc e =>
    if strHasSub (strLower tag) (strLower e.1) then sunion acc e.2 else acc) []

/-- One iteration of the candidate-id loop of `search_by_tags`
(memory.py:120-131): when the accumulated set is empty it is replaced by the
current tag's matches; otherwise it is intersected (`require_all`) or
unioned. -/
def tagsStep (st : AgentMemory) (requireAll : Bool) (cand : List Nat)
    (tag : String) : List Nat :=
  let m := st.tagMatches tag
  if cand.isEmpty then m
  else if requireAll then cand.filter (fun i => decide (i ∈ m))
  else sunion cand m

/-- The candidate-id accumulation loop of `search_by_tags`
(memory.py:119-131). -/
def AgentMemory.tagsCandidates (st : AgentMemory) (tags : List String)
    (requireAll : Bool) : List Nat :=
  tags.foldl (tagsStep st requireAll) []

/-- The result-collection loop shared by `search_by_tags` and
`search_by_context` (memory.py:133-137, 164-168): retrieve each candidate id,
dropping (and lazily purging) expired or absent ones. -/
def collectResults (now : Nat) : AgentMemory → List Nat →
    List MemoryItem × AgentMemory
  | st, [] => ([], st)
  | st, id :: rest =>
    match AgentMemory.retrieve st now id with
    | (some m, st') =>
      let r := collectResults now st' rest
      (m :: r.1, r.2)
    | (Option.none, st') => collectResults now st' rest

/-- Embeds `results.sort(key=lambda x: x.importance, reverse=True)`: stable sort by
importance descending. -/
def sortByImportanceDesc (xs : List MemoryItem) : List MemoryItem :=
  sortStable (fun a b => decide (b.importance ≤ a.importance)) xs

/-- Embeds `AgentMemory.search_by_tags` (memory.py:114-141). -/
def AgentMemory.searchByTags (st : AgentMemory) (now : Nat)
    (tags : List String) (requireAll : Bool) :
    List MemoryItem × AgentMemory :=
  if tags.isEmpty then ([], st)
  else
    let (res, st') := collectResults now st (st.tagsCandidates tags requireAll)
    (sortByImportanceDesc res, st')

/-- One iteration of the candidate loop of `search_by_context`
(memory.py:151-162): intersect with the pair's index entry when one exists,
silently skip the pair otherwise. -/
def contextStep (st : AgentMemory) (cand : List Nat)
    (kv : String × String) : List Nat :=
  match alookup st.contextIndex (contextKey kv) with
  | some ids => cand.filter (fun i => decide (i ∈ ids))
  | Option.none => cand

/-- Embeds `AgentMemory.search_by_context` (memory.py:143-172). The Python loop
returns `[]` as soon as an index key is missing while `first_key` is still
true — which happens exactly when the first supplied pair has no index
entry; later pairs with no index entry are silently skipped. -/
def AgentMemory.searchByContext (st : AgentMemory) (now : Nat)
    (ctx : List (String × String)) : List MemoryItem × AgentMemory :=
  match ctx with
  | [] => ([], st)
  | kv :: rest =>
    match alookup st.contextIndex (contextKey kv) with
    | Option.none => ([], st)
    | some ids0 =>
      let cand := rest.foldl (contextStep st) ids0
      let (res, st') := collectResults now st cand
      (sortByImportanceDesc res, st')

/-- Extract a Python list of strings, if every element is a string. -/
def strList : List PyVal → Option (List String)
  | [] => some []
  | PyVal.str s :: rest =>
    match strList rest with
    | some ss => some (s :: ss)
    | Option.none => Option.none
  | _ => Option.none

/-- Clamp to `[0, 1]` — `max(0, min(1, x))` (memory.py:203). -/
def clamp01 (q : ℚ) : ℚ := max 0 (min 1 q)

/-- Embeds `AgentMemory.update` (memory.py:195-240). The `importance` branch fires
only when the new value `isinstance(..., float)`; the `tags`/`context`
branches fire on lists/dicts and reindex; every other key is handled by the
generic `setattr` loop, which explicitly skips `importance`, `tags` and
`context`. Of the generic attributes the model carries `content` and (for
string values) `source`; `timestamp`/`expiration`/`metadata` writes are not
modelled, and `tags` lists with non-string elements (which would break later
searches in Python) are left unapplied. -/
def AgentMemory.update (st : AgentMemory) (now : Nat) (id : Nat)
    (updates : List (String × PyVal)) : Bool × AgentMemory :=
  match st.retrieve now id with
  | (Option.none, st') => (false, st')
  | (some m, st') =>
    let m := match alookup updates "importance" with
      | some (PyVal.float q) => { m with importance := clamp01 q }
      | _ => m
    let tagsStep : MemoryItem × List (String × List Nat) :=
      match alookup updates "tags" with
      | some (PyVal.list xs) =>
        match strList xs with
        | some newTags =>
          let idx1 := m.tags.foldl (fun idx tag =>
            match alookup idx tag with
            | some ids => aset idx tag (sremove ids id)
            | Option.none => idx) st'.tagsIndex
          let idx2 := newTags.foldl (fun idx tag =>
            match alookup idx tag with
            | some ids => aset idx tag (sinsert ids id)
            | Option.none => aset idx tag [id]) idx1
          ({ m with tags := newTags }, idx2)
        | Option.none => (m, st'.tagsIndex)
      | _ => (m, st'.tagsIndex)
    let m := tagsStep.1
    let tIdx := tagsStep.2
    let ctxStep : MemoryItem × List (String × List Nat) :=
      match alookup updates "context" with
      | some (PyVal.dict xs) =>
        match strList (xs.map Prod.snd) with
        | some vals =>
          let newCtx := (xs.map Prod.fst).zip vals
          let idx1 := m.context.foldl (fun idx kv =>
            match alookup idx (contextKey kv) with
            | some ids => aset idx (contextKey kv) (sremove ids id)
            | Option.none => idx) st'.contextIndex
          let idx2 := newCtx.foldl (fun idx kv =>
            match alookup idx (contextKey kv) with
            | some ids => aset idx (contextKey kv) (sinsert ids id)
            | Option.none => aset idx (contextKey kv) [id]) idx1
          ({ m with context := newCtx }, idx2)
        | Option.none => (m, st'.contextIndex)
      | _ => (m, st'.contextIndex)
    let m := ctxStep.1
    let cIdx := ctxStep.2
    let m := match alookup updates "content" with
      | some v => { m with content := v }
      | Option.none => m
    let m := match alookup updates "source" with
      | some (PyVal.str s) => { m with source := s }
      | _ => m
    (true, { st' with memories := aset st'.memories id m,
                      tagsIndex := tIdx, contextIndex := cIdx })

/-- Embeds `Message` (communication.py:14-24), with the fields the claims touch;
agents are represented by their id strings. -/
structure Message where
  id : Nat
  senderId : String
  recipientId : String
  msgType : String
  content : PyVal

/-- Embeds `CommunicationChannel` (communication.py:26-35). Per-message-type
callbacks are opaque callback ids; invoking one is recorded in a trace. -/
structure Channel where
  id : Nat
  agentA : String
  agentB : String
  history : List Message
  callbacks : List (String × List Nat)

/-- Embeds `MessageBus` (communication.py:81-89). `direct_channels` maps the sorted
id pair to the channel id (Python stores a shared reference; the model keys
the single channel body by its id in `channels`). -/
structure MessageBus where
  channels : List (Nat × Channel)
  directChannels : List ((String × String) × Nat)
  topicChannels : List (String × List String)
  topicCallbacks : List (String × List Nat)
  nextChannelId : Nat
  nextMessageId : Nat

/-- Embeds `sorted([agent_a.agent_id, agent_b.agent_id])` (communication.py:94). -/
def sortPair (x y : String) : String × String :=
  if x ≤ y then (x, y) else (y, x)

/-- Embeds `MessageBus.get_or_create_channel` (communication.py:91-104): look up the
sorted id pair, creating and registering a fresh channel when absent.
Returns the channel id. -/
def MessageBus.getOrCreateChannel (bus : MessageBus) (a b : String) :
    Nat × MessageBus :=
  let key := sortPair a b
  match alookup bus.directChannels key with
  | some cid => (cid, bus)
  | Option.none =>
    let cid := bus.nextChannelId
    let ch : Channel := ⟨cid, a, b, [], []⟩
    (cid, { bus with channels := aset bus.channels cid ch,
                     directChannels := aset bus.directChannels key cid,
                     nextChannelId := bus.nextChannelId + 1 })

/-- Embeds `CommunicationChannel.send_message` (communication.py:37-61) on the
channel with id `cid`: validate membership of both parties (raising
`ValueError` otherwise), append the message to the history, and invoke the
callbacks registered for the message type (exceptions in callbacks are
caught, so invocation is just recorded in the returned trace). Returns the
message id, the callback trace and the updated bus. -/
def MessageBus.sendOnChannel (bus : MessageBus) (cid : Nat)
    (sender recipient msgType : String) (content : PyVal) :
    Except String (Nat × List (Nat × Message) × MessageBus) :=
  match alookup bus.channels cid with
  | Option.none => Except.error "channel not found"
  | some ch =>
    if (sender = ch.agentA ∨ sender = ch.agentB) ∧
       (recipient = ch.agentA ∨ recipient = ch.agentB) then
      let msg : Message := ⟨bus.nextMessageId, sender, recipient, msgType, content⟩
      let trace := ((alookup ch.callbacks msgType).getD []).map (fun c => (c, msg))
      Except.ok (msg.id, trace,
        { bus with channels := aset bus.channels cid
                     { ch with history := ch.history ++ [msg] },
                   nextMessageId := bus.nextMessageId + 1 })
    else Except.error "Sender and recipient must be agents in this channel"

/-- The fan-out loop of `MessageBus.publish` (communication.py:129-142):
for each subscriber other than the sender, get or create the direct channel
and send; a raised `ValueError` propagates. Returns the sent messages, the
channel-callback trace and the updated bus. -/
def MessageBus.fanOut (sender msgType : String) (content : PyVal) :
    MessageBus → List String →
    Except String (List Message × List (Nat × Message) × MessageBus)
  | bus, [] => Except.ok ([], [], bus)
  | bus, r :: rest =>
    if r = sender then MessageBus.fanOut sender msgType content bus rest
    else
      let (cid, bus1) := bus.getOrCreateChannel sender r
      match bus1.sendOnChannel cid sender r msgType content with
      | Except.error e => Except.error e
      | Except.ok (mid, trace, bus2) =>
        let msg : Message := ⟨mid, sender, r, msgType, content⟩
        match MessageBus.fanOut sender msgType content bus2 rest with
        | Except.error e => Except.error e
        | Except.ok (msgs, traces, bus3) =>
          Except.ok (msg :: msgs, trace ++ traces, bus3)

/-- Result of `MessageBus.publish`: the returned message ids, the sent
messages, the channel- and topic-callback invocation traces, and the new bus
state. -/
structure PublishResult where
  messageIds : List Nat
  sent : List Message
  channelCbCalls : List (Nat × Message)
  topicCbCalls : List (Nat × Message)
  bus : MessageBus

/-- Embeds `MessageBus.publish` (communication.py:120-160): fan out to every topic
subscriber except the sender, then invoke each topic-level callback once
with a synthetic message addressed to `"topic:<name>"`. -/
def MessageBus.publish (bus : MessageBus) (sender topic msgType : String)
    (content : PyVal) : Except String PublishResult :=
  match alookup bus.topicChannels topic with
  | Option.none => Except.ok ⟨[], [], [], [], bus⟩
  | some subs =>
    match MessageBus.fanOut sender msgType content bus subs with
    | Except.error e => Except.error e
    | Except.ok (msgs, chTrace, bus1) =>
      match alookup bus1.topicCallbacks topic with
      | some cbs =>
        let m : Message :=
          ⟨bus1.nextMessageId, sender, "topic:" ++ topic, msgType, content⟩
        Except.ok ⟨msgs.map Message.id, msgs, chTrace,
          cbs.map (fun c => (c, m)),
          { bus1 with nextMessageId := bus1.nextMessageId + 1 }⟩
      | Option.none =>
        Except.ok ⟨msgs.map Message.id, msgs, chTrace, [], bus1⟩

/-- Reachable-state invariant of the bus: channel ids are below the id
counter, and every direct-channel entry points at an existing channel and is
keyed by the sorted pair of that channel's two member ids
(communication.py:93-104 establishes both at creation). -/
def MessageBus.wellFormed (bus : MessageBus) : Bool :=
  bus.channels.all (fun e => decide (e.1 < bus.nextChannelId)) &&
  bus.directChannels.all (fun e =>
    match alookup bus.channels e.2 with
    | some ch => decide (e.1 = sortPair ch.agentA ch.agentB)
    | Option.none => false)

/-- Agent capability snapshot, as consumed by the role manager
(role_negotiation.py:71, 92): `get_skills()` and `permissions`. -/
structure AgentModel where
  agentId : String
  skills : List (String × ℚ)
  permissions : List String

/-- Embeds `RoleRequirement` (role_negotiation.py:12-17). -/
structure RoleRequirement where
  skills : List (String × ℚ)
  permissions : List String

/-- Accumulator of the skill-evaluation loop (role_negotiation.py:74-89). -/
structure EvalAcc where
  skillMatch : List (String × ℚ)
  missingSkills : List (String × ℚ × ℚ)
  totalMatchScore : ℚ

/-- Match quality per satisfied skill (role_negotiation.py:88):
`min(1.0, actual / (min_proficiency or 0.1))` — a zero minimum is replaced
by `0.1`. -/
def matchQuality (minP actual : ℚ) : ℚ :=
  min 1 (actual / (if minP = 0 then 1/10 else minP))

/-- One iteration of the skill loop (role_negotiation.py:79-89). -/
def evalSkillStep (agent : AgentModel) (acc : EvalAcc) (sk : String × ℚ) :
    EvalAcc :=
  let actual := (alookup agent.skills sk.1).getD 0
  let sm := aset acc.skillMatch sk.1 actual
  if actual < sk.2 then
    ⟨sm, acc.missingSkills ++ [(sk.1, sk.2, actual)], acc.totalMatchScore⟩
  else
    ⟨sm, acc.missingSkills, acc.totalMatchScore + matchQuality sk.2 actual⟩

/-- Result of `RoleManager.evaluate_agent_for_role`. -/
structure RoleEvaluation where
  confidence : ℚ
  skillMatch : List (String × ℚ)
  missingSkills : List (String × ℚ × ℚ)
  missingPermissions : List String
  qualified : Bool

/-- Embeds `RoleManager.evaluate_agent_for_role` (role_negotiation.py:65-114) for a
registered role with requirement `req`. -/
def evaluateAgentForRole (agent : AgentModel) (req : RoleRequirement) :
    RoleEvaluation :=
  let acc := req.skills.foldl (evalSkillStep agent) ⟨[], [], 0⟩
  let missingPerms :=
    req.permissions.filter (fun p => decide (p ∉ agent.permissions))
  let n := req.skills.length
  let confidence : ℚ :=
    if n = 0 then 0
    else
      let c := acc.totalMatchScore / (n : ℚ)
      let c := if acc.missingSkills.isEmpty then c
        else c * (1 - ((acc.missingSkills.length : ℚ) / (n : ℚ)) * (1/2))
      if missingPerms.isEmpty then c
      else c * (4/5) ^ missingPerms.length
  ⟨confidence, acc.skillMatch, acc.missingSkills, missingPerms,
    acc.missingSkills.isEmpty && missingPerms.isEmpty⟩

/-- The opening brace character. -/
def braceL : Char := Char.ofNat 123

/-- The closing brace character. -/
def braceR : Char := Char.ofNat 125

/-- Embeds `value[2:-1].split(".")` (orchestrator.py:216): split the template body
on dots, keeping empty pieces, like Python `str.split`. -/
def splitDots : List Char → List Char → List String
  | [], acc => [String.mk acc.reverse]
  | c :: rest, acc =>
    if c = '.' then String.mk acc.reverse :: splitDots rest []
    else splitDots rest (c :: acc)

/-- The `value.startswith("${") and value.endswith("}")` test
(orchestrator.py:214) together with the `value[2:-1]` slice: returns the
template body when the string is of the template form. -/
def templateBody : List Char → Option (List Char)
  | '$' :: b :: rest =>
    if b = braceL ∧ rest ≠ [] ∧ rest.getLast? = some braceR then
      some rest.dropLast
    else Option.none
  | _ => Option.none

/-- The path walk of input resolution (orchestrator.py:217-222):
`context_value = context_value[path_part]` for each part, where indexing a
non-dict raises `TypeError` and a missing key raises `KeyError` — both are
mapped to `none` (caught at the call site). -/
def walkPath : PyVal → List String → Option PyVal
  | v, [] => some v
  | PyVal.dict entries, p :: rest =>
    match alookup entries p with
    | some v => walkPath v rest
    | Option.none => Option.none
  | _, _ :: _ => Option.none

/-- Resolution of one input value (orchestrator.py:213-227): a string of the
form `"${...}"` is split on dots and walked over the instance context,
falling back to `None` (with a logged warning) on `KeyError`/`TypeError`;
any other value passes through unchanged. -/
def resolveValue (ctx : List (String × PyVal)) : PyVal → PyVal
  | PyVal.str s =>
    match templateBody s.toList with
    | some body =>
      match walkPath (PyVal.dict ctx) (splitDots body []) with
      | some cv => cv
      | Option.none => PyVal.none
    | Option.none => PyVal.str s
  | v => v

/-- The input-resolution loop of `Orchestrator._execute_workflow_step`
(orchestrator.py:211-227). -/
def resolveInputs (inputs : List (String × PyVal))
    (ctx : List (String × PyVal)) : List (String × PyVal) :=
  inputs.map (fun kv => (kv.1, resolveValue ctx kv.2))

/-- Embeds `WorkflowStep` (orchestrator.py:17-29), restricted to the fields the
orchestration loop consults: `id`, `name` and the `on_failure` redirect
(`inputs`/`output_mapping` are handled by `resolveInputs` above, and
`timeout_seconds`/`retry_count` are declared but never consulted,
spec §9). -/
structure WorkflowStepM where
  id : String
  name : String
  onFailure : Option String

/-- Embeds `WorkflowDefinition` (orchestrator.py:31-44). -/
structure WorkflowDefM where
  id : String
  steps : List WorkflowStepM
  transitions : List (String × List (String × String))
  initialStepId : Option String

/-- The step result, reduced to the `status` field that drives transitions
(`result.get("status", "default")`, orchestrator.py:164); `none` models an
absent `status` key. -/
structure StepResult where
  status : Option String

/-- Embeds `WorkflowInstance` (orchestrator.py:46-59), with the fields the claims
touch; error records are reduced to their message strings. -/
structure WorkflowInstanceM where
  id : String
  workflowId : String
  status : String
  currentStepId : Option String
  stepResults : List (String × StepResult)
  errors : List String
  startedAt : Option Nat
  completedAt : Option Nat

/-- Embeds `next((s for s in workflow.steps if s.id == step_id), None)`
(orchestrator.py:146). -/
def findStep (wf : WorkflowDefM) (sid : String) : Option WorkflowStepM :=
  wf.steps.find? (fun s => s.id == sid)

/-- Next-step determination (orchestrator.py:161-173): look up the current
step's transition table; key it by the result's `status` (defaulting to the
key `"default"` when absent); fall back to the `"default"` entry; `none`
when no transition applies or the step has no table. -/
def nextStepId (wf : WorkflowDefM) (sid : String) (result : StepResult) :
    Option String :=
  match alookup wf.transitions sid with
  | Option.none => Option.none
  | some table =>
    match alookup table (result.status.getD "default") with
    | some nxt => some nxt
    | Option.none => alookup table "default"

/-- Embeds `Orchestrator._complete_workflow_instance` (orchestrator.py:337-358). -/
def completeInstance (inst : WorkflowInstanceM) (now : Nat) :
    WorkflowInstanceM :=
  { inst with status := "completed", completedAt := some now }

/-- Embeds `Orchestrator._fail_workflow_instance` (orchestrator.py:360-378). -/
def failInstance (inst : WorkflowInstanceM) (now : Nat) (msg : String) :
    WorkflowInstanceM :=
  { inst with status := "failed", completedAt := some now,
              errors := inst.errors ++ [msg] }

/-- The `while step_id:` loop of `Orchestrator._execute_workflow_instance`
(orchestrator.py:144-192). The awaited `_execute_workflow_step` call is
abstracted by the oracle `exec` (tool execution is external to the core,
spec §1): `Except.ok` is a returned result dict, `Except.error` a raised
exception. `fuel` bounds the number of iterations (the Python loop has no
bound; every claim concerns finitely many steps). Note Python's `while
step_id` also exits on an empty-string step id. -/
def runSteps (wf : WorkflowDefM) (exec : String → Except String StepResult)
    (now : Nat) : Nat → Option String → WorkflowInstanceM → WorkflowInstanceM
  | _, Option.none, inst => completeInstance inst now
  | 0, some _, inst => inst
  | fuel + 1, some sid, inst =>
    if sid = "" then completeInstance inst now
    else
      match findStep wf sid with
      | Option.none =>
        failInstance inst now
          ("Step not found in workflow definition: " ++ sid)
      | some step =>
        let inst := { inst with currentStepId := some sid }
        match exec sid with
        | Except.ok r =>
          runSteps wf exec now fuel (nextStepId wf sid r)
            { inst with stepResults := aset inst.stepResults sid r }
        | Except.error e =>
          match step.onFailure with
          | some nid =>
            runSteps wf exec now fuel (some nid)
              { inst with errors := inst.errors ++ [e] }
          | Option.none =>
            failInstance inst now ("Step execution error: " ++ e)

/-- Embeds `Orchestrator._execute_workflow_instance` entry (orchestrator.py:119-192):
mark the instance running and run the step loop from the initial step. -/
def executeWorkflowInstance (wf : WorkflowDefM)
    (exec : String → Except String StepResult) (now fuel : Nat)
    (initialStepId : String) (inst : WorkflowInstanceM) : WorkflowInstanceM :=
  runSteps wf exec now fuel (some initialStepId)
    { inst with status := "running", startedAt := some now,
                currentStepId := some initialStepId }

/-- The orchestrator's instance registry, as far as cancellation needs it. -/
structure OrchState where
  instances : List (String × WorkflowInstanceM)

/-- Embeds `Orchestrator.cancel_workflow_instance` (orchestrator.py:380-398):
`False` for an unknown instance or one not in `pending`/`running`; otherwise
set status `"cancelled"`, record the completion timestamp and return
`True`. -/
def cancelWorkflowInstance (st : OrchState) (iid : String) (now : Nat) :
    Bool × OrchState :=
  match alookup st.instances iid with
  | Option.none => (false, st)
  | some inst =>
    if inst.status = "pending" ∨ inst.status = "running" then
      (true, ⟨aset st.instances iid
        { inst with status := "cancelled", completedAt := some now }⟩)
    else (false, st)

/-! ### Auxiliary predicates and concrete states used by the theorems -/

/-- Reachable-state fact of the memory store: every entry of the item map is
keyed by its item's id (`store` always inserts under the fresh item id). -/
def keysMatch (st : AgentMemory) : Prop :=
  ∀ e ∈ st.memories, e.2.id = e.1

/-- The side-effect-free core of `retrieve`: the item under `id` when it is
present and not expired. The stateful `retrieve` returns exactly this and
additionally purges an expired entry. -/
def pureRetrieve (st : AgentMemory) (now : Nat) (id : Nat) :
    Option MemoryItem :=
  match alookup st.memories id with
  | some m => if m.isExpired now then Option.none else some m
  | Option.none => Option.none

/-- Check that the accumulated candidate set of the `require_all` tag search
is non-empty after every proper prefix of the query tags — the regime in
which the loop of memory.py:119-131 really intersects. -/
def noMidEmpty (st : AgentMemory) (tags : List String) : Bool :=
  (List.range tags.length).all (fun n =>
    n == 0 || !(st.tagsCandidates (tags.take n) true).isEmpty)

/-- Two-step scenario workflow: `S1 → S2` with transition map
`{"S1": {"success": "S2"}}` and no transitions for `S2`. -/
def wfScenario : WorkflowDefM :=
  ⟨"W", [⟨"S1", "step one", Option.none⟩, ⟨"S2", "step two", Option.none⟩],
    [("S1", [("success", "S2")])], some "S1"⟩

/-- Fresh pending instance for the scenario workflow. -/
def instScenario : WorkflowInstanceM :=
  ⟨"I", "W", "pending", Option.none, [], [], Option.none, Option.none⟩

/-- One-item store whose single item carries the tag `"b"`. -/
def c3St : AgentMemory :=
  ((AgentMemory.emptyMem 1000).store
    ⟨PyVal.str "fact", "src", 1/2, ["b"], [], Option.none⟩).2

/-- One-item store whose single item carries the context pair `a: 1`. -/
def c4St : AgentMemory :=
  ((AgentMemory.emptyMem 1000).store
    ⟨PyVal.str "fact", "src", 1/2, [], [("a", "1")], Option.none⟩).2

/-- Fresh bus with topic `"t"` subscribed by agents `a`, `b`, `c` and one
registered topic callback. -/
def c7Bus : MessageBus :=
  ⟨[], [], [("t", ["a", "b", "c"])], [("t", [7])], 0, 0⟩

/-! ### Association-list and set lemmas -/

theorem alookup_aset_self {κ α : Type} [DecidableEq κ] (l : List (κ × α))
    (k : κ) (v : α) : alookup (aset l k v) k = some v := by
  induction l with
  | nil => simp [aset, alookup]
  | cons e rest ih =>
    by_cases h : e.1 = k
    · simp [aset, h, alookup]
    · simp [aset, h, alookup, ih]

theorem alookup_aset_ne {κ α : Type} [DecidableEq κ] (l : List (κ × α))
    {k k' : κ} (v : α) (h : k' ≠ k) :
    alookup (aset l k v) k' = alookup l k' := by
  induction l with
  | nil => simp [aset, alookup, h.symm]
  | cons e rest ih =>
    obtain ⟨k1, v1⟩ := e
    by_cases he : k1 = k
    · simp [aset, he, alookup, h.symm]
    · simp [aset, he, alookup, ih]

theorem aset_eq_of_alookup {κ α : Type} [DecidableEq κ] {l : List (κ × α)}
    {k : κ} {v : α} (h : alookup l k = some v) : aset l k v = l := by
  induction l with
  | nil => simp [alookup] at h
  | cons e rest ih =>
    obtain ⟨k1, v1⟩ := e
    by_cases he : k1 = k
    · simp [alookup, he] at h
      simp [aset, he, h]
    · simp [alookup, he] at h
      simp [aset, he, ih h]

theorem alookup_mem {κ α : Type} [DecidableEq κ] {l : List (κ × α)} {k : κ}
    {v : α} (h : alookup l k = some v) : (k, v) ∈ l := by
  induction l with
  | nil => simp [alookup] at h
  | cons e rest ih =>
    obtain ⟨k1, v1⟩ := e
    by_cases he : k1 = k
    · simp [alookup, he] at h
      simp [he, h]
    · simp [alookup, he] at h
      exact List.mem_cons_of_mem _ (ih h)

theorem mem_aset {κ α : Type} [DecidableEq κ] {l : List (κ × α)} {k : κ}
    {v : α} {e : κ × α} (h : e ∈ aset l k v) : e = (k, v) ∨ e ∈ l := by
  induction l with
  | nil => simpa [aset] using h
  | cons e' rest ih =>
    obtain ⟨k1, v1⟩ := e'
    by_cases he : k1 = k
    · simp only [aset, if_pos he, List.mem_cons] at h
      rcases h with h | h
      · exact Or.inl h
      · exact Or.inr (List.mem_cons_of_mem _ h)
    · simp only [aset, if_neg he, List.mem_cons] at h
      rcases h with h | h
      · exact Or.inr (by simp [h])
      · rcases ih h with h' | h'
        · exact Or.inl h'
        · exact Or.inr (List.mem_cons_of_mem _ h')

theorem aset_length_le {κ α : Type} [DecidableEq κ] (l : List (κ × α))
    (k : κ) (v : α) : (aset l k v).length ≤ l.length + 1 := by
  induction l with
  | nil => simp [aset]
  | cons e rest ih =>
    obtain ⟨k1, v1⟩ := e
    by_cases he : k1 = k
    · simp [aset, he]
    · simp only [aset, if_neg he, List.length_cons]
      omega

theorem adel_sublist {κ α : Type} [DecidableEq κ] (l : List (κ × α))
    (k : κ) : List.Sublist (adel l k) l := by
  induction l with
  | nil => simp [adel]
  | cons e rest ih =>
    by_cases he : e.1 = k
    · simp only [adel, if_pos he]
      exact ih.cons _
    · simp only [adel, if_neg he]
      exact ih.cons₂ _

theorem adel_length_lt {κ α : Type} [DecidableEq κ] {l : List (κ × α)}
    {k : κ} (h : k ∈ l.map Prod.fst) : (adel l k).length < l.length := by
  induction l with
  | nil => simp at h
  | cons e rest ih =>
    by_cases he : e.1 = k
    · simp only [adel, if_pos he, List.length_cons]
      exact Nat.lt_succ_of_le (adel_sublist rest k).length_le
    · simp only [List.map_cons, List.mem_cons] at h
      rcases h with h | h
      · exact absurd h.symm he
      · simp only [adel, if_neg he, List.length_cons]
        exact Nat.succ_lt_succ (ih h)

theorem alookup_adel_self {κ α : Type} [DecidableEq κ] (l : List (κ × α))
    (k : κ) : alookup (adel l k) k = none := by
  induction l with
  | nil => simp [adel, alookup]
  | cons e rest ih =>
    by_cases he : e.1 = k
    · simp [adel, he, ih]
    · simp [adel, alookup, he, ih]

theorem alookup_adel_ne {κ α : Type} [DecidableEq κ] (l : List (κ × α))
    {k k' : κ} (h : k' ≠ k) : alookup (adel l k) k' = alookup l k' := by
  induction l with
  | nil => simp [adel]
  | cons e rest ih =>
    by_cases he : e.1 = k
    · rw [adel, if_pos he, ih, alookup]
      rw [if_neg (by rw [he]; exact fun h' => h h'.symm)]
    · rw [adel, if_neg he, alookup, alookup]
      by_cases he' : e.1 = k'
      · rw [if_pos he', if_pos he']
      · rw [if_neg he', if_neg he', ih]

theorem mem_sinsert {l : List Nat} {x y : Nat} :
    x ∈ sinsert l y ↔ x ∈ l ∨ x = y := by
  by_cases h : y ∈ l
  · simp only [sinsert, if_pos h]
    constructor
    · exact Or.inl
    · rintro (hx | rfl)
      · exact hx
      · exact h
  · simp [sinsert, if_neg h]

theorem mem_sunion {a b : List Nat} {x : Nat} :
    x ∈ sunion a b ↔ x ∈ a ∨ x ∈ b := by
  induction b generalizing a with
  | nil => simp [sunion]
  | cons y rest ih =>
    show x ∈ sunion (sinsert a y) rest ↔ _
    rw [ih, mem_sinsert]
    simp only [List.mem_cons]
    tauto

/-! ### Lemmas about the stable sort -/

theorem insertStable_perm {α : Type} (le : α → α → Bool) (x : α)
    (l : List α) : (insertStable le x l).Perm (x :: l) := by
  induction l with
  | nil => exact List.Perm.refl _
  | cons y ys ih =>
    by_cases h : le x y = true
    · rw [insertStable, if_pos h]
    · rw [insertStable, if_neg h]
      exact (ih.cons y).trans (List.Perm.swap x y ys)

theorem sortStable_perm {α : Type} (le : α → α → Bool) (l : List α) :
    (sortStable le l).Perm l := by
  induction l with
  | nil => exact List.Perm.refl _
  | cons x xs ih =>
    exact (insertStable_perm le x (sortStable le xs)).trans (ih.cons x)

theorem mem_sortStable {α : Type} {le : α → α → Bool} {l : List α} {a : α} :
    a ∈ sortStable le l ↔ a ∈ l :=
  (sortStable_perm le l).mem_iff

theorem insertStable_pairwise {α : Type} (le : α → α → Bool)
    (total : ∀ a b, le a b = false → le b a = true)
    (trans : ∀ a b c, le a b = true → le b c = true → le a c = true)
    (x : α) {l : List α}
    (h : List.Pairwise (fun a b => le a b = true) l) :
    List.Pairwise (fun a b => le a b = true) (insertStable le x l) := by
  induction l with
  | nil => simp [insertStable]
  | cons y ys ih =>
    rw [List.pairwise_cons] at h
    obtain ⟨hy, hys⟩ := h
    by_cases hxy : le x y = true
    · rw [insertStable, if_pos hxy, List.pairwise_cons]
      refine ⟨?_, List.Pairwise.cons hy hys⟩
      intro z hz
      rcases List.mem_cons.mp hz with rfl | hz'
      · exact hxy
      · exact trans x y z hxy (hy z hz')
    · rw [insertStable, if_neg hxy, List.pairwise_cons]
      refine ⟨?_, ih hys⟩
      intro z hz
      have hz' := (insertStable_perm le x ys).mem_iff.mp hz
      rcases List.mem_cons.mp hz' with h1 | hz''
      · rw [h1]
        exact total x y (Bool.eq_false_iff.mpr hxy)
      · exact hy z hz''

theorem sortStable_pairwise {α : Type} (le : α → α → Bool)
    (total : ∀ a b, le a b = false → le b a = true)
    (trans : ∀ a b c, le a b = true → le b c = true → le a c = true)
    (l : List α) :
    List.Pairwise (fun a b => le a b = true) (sortStable le l) := by
  induction l with
  | nil => simp [sortStable]
  | cons x xs ih => exact insertStable_pairwise le total trans x ih

/-! ### Lemmas about the sorted channel key -/

theorem sortPair_comm (a b : String) : sortPair a b = sortPair b a := by
  unfold sortPair
  rcases lt_trichotomy a b with h | h | h
  · rw [if_pos h.le, if_neg (not_le.mpr h)]
  · subst h
    simp
  · rw [if_neg (not_le.mpr h), if_pos h.le]

theorem sortPair_cases (a b : String) :
    sortPair a b = (a, b) ∨ sortPair a b = (b, a) := by
  unfold sortPair
  by_cases h : a ≤ b
  · exact Or.inl (if_pos h)
  · exact Or.inr (if_neg h)

theorem mem_of_sortPair_eq {a b c d : String}
    (h : sortPair a b = sortPair c d) :
    (a = c ∨ a = d) ∧ (b = c ∨ b = d) := by
  rcases sortPair_cases a b with h1 | h1 <;>
    rcases sortPair_cases c d with h2 | h2 <;>
    rw [h1, h2] at h <;>
    simp only [Prod.mk.injEq] at h <;>
    tauto

/-! ### C8: direct channels are idempotent per unordered agent pair -/

theorem getOrCreateChannel_lookup (bus : MessageBus) (a b : String) :
    alookup (bus.getOrCreateChannel a b).2.directChannels (sortPair a b) =
      some (bus.getOrCreateChannel a b).1 := by
  unfold MessageBus.getOrCreateChannel
  cases h : alookup bus.directChannels (sortPair a b) with
  | some cid => simp [h]
  | none => simp [h, alookup_aset_self]

/-- C8: for every bus and agents `A`, `B`, a second `get_or_create_channel`
call — with the arguments in either order — returns the same channel id as
the first call: the bus keeps at most one direct channel per unordered
pair, keyed by the sorted agent-id pair. -/
theorem getOrCreateChannel_unordered_idempotent (bus : MessageBus)
    (a b : String) :
    ((bus.getOrCreateChannel a b).2.getOrCreateChannel a b).1 =
      (bus.getOrCreateChannel a b).1 ∧
    ((bus.getOrCreateChannel a b).2.getOrCreateChannel b a).1 =
      (bus.getOrCreateChannel a b).1 := by
  have h1 := getOrCreateChannel_lookup bus a b
  generalize hg : bus.getOrCreateChannel a b = p at h1 ⊢
  obtain ⟨cid, bus1⟩ := p
  dsimp only at h1 ⊢
  constructor
  · unfold MessageBus.getOrCreateChannel
    simp only [h1]
  · unfold MessageBus.getOrCreateChannel
    simp only [sortPair_comm b a, h1]

/-! ### C9: cancellation succeeds exactly from pending/running -/

/-- C9: `cancel_workflow_instance` returns `True` exactly when the instance
exists with status `pending` or `running`; in that case it sets status
`cancelled` and the completion timestamp; in every other case it returns
`False` and leaves the state (status and timestamps included) unchanged. -/
theorem cancelWorkflowInstance_iff (st : OrchState) (iid : String)
    (now : Nat) :
    ((cancelWorkflowInstance st iid now).1 = true ↔
      ∃ inst, alookup st.instances iid = some inst ∧
        (inst.status = "pending" ∨ inst.status = "running")) ∧
    ((cancelWorkflowInstance st iid now).1 = false →
      (cancelWorkflowInstance st iid now).2 = st) ∧
    (∀ inst, alookup st.instances iid = some inst →
      (inst.status = "pending" ∨ inst.status = "running") →
      (cancelWorkflowInstance st iid now).2.instances =
        aset st.instances iid
          { inst with status := "cancelled", completedAt := some now }) := by
  unfold cancelWorkflowInstance
  cases h : alookup st.instances iid with
  | none => simp [h]
  | some inst =>
    by_cases hs : inst.status = "pending" ∨ inst.status = "running"
    · simp [h, hs]
    · simp [h, hs]

/-- Closed witness for C9 at a one-instance registry: a `running` instance is
cancellable, and the cancelled state is exactly the updated registry. -/
theorem cancelWorkflowInstance_iff_witness :
    ((cancelWorkflowInstance
        ⟨[("i1", ⟨"i1", "w", "running", Option.none, [], [],
          Option.none, Option.none⟩)]⟩ "i1" 5).1 = true ↔
      ∃ inst, alookup [("i1", (⟨"i1", "w", "running", Option.none, [], [],
          Option.none, Option.none⟩ : WorkflowInstanceM))] "i1" = some inst ∧
        (inst.status = "pending" ∨ inst.status = "running")) :=
  (cancelWorkflowInstance_iff
    ⟨[("i1", ⟨"i1", "w", "running", Option.none, [], [],
      Option.none, Option.none⟩)]⟩ "i1" 5).1

/-! ### C10: integer-valued importance updates are silently ignored -/

/-- C10: on a stored, non-expired item, `update(id, importance=v)` with an
integer `v` returns `True` but changes nothing at all — the clamped
importance write requires `isinstance(v, float)`, and the generic attribute
loop explicitly skips the `importance` key. -/
theorem update_int_importance_noop (st : AgentMemory) (now id : Nat)
    (v : Int) (m : MemoryItem) (hm : alookup st.memories id = some m)
    (hexp : m.isExpired now = false) :
    st.update now id [("importance", PyVal.int v)] = (true, st) := by
  simp [AgentMemory.update, AgentMemory.retrieve, hm, hexp, alookup,
    aset_eq_of_alookup hm]

/-- Closed witness for C10: updating a concrete stored item's importance to
the integer `1` returns `True` and leaves the store untouched. -/
theorem update_int_importance_noop_witness :
    ((AgentMemory.emptyMem 10).store
        ⟨PyVal.str "f", "src", 1/2, [], [], Option.none⟩).2.update 0 0
        [("importance", PyVal.int 1)] =
      (true, ((AgentMemory.emptyMem 10).store
        ⟨PyVal.str "f", "src", 1/2, [], [], Option.none⟩).2) :=
  update_int_importance_noop _ 0 0 1
    ⟨0, PyVal.str "f", "src", Option.none, 1/2, [], []⟩ rfl rfl

/-! ### C1: `${context.*}` input templates resolve against the raw context -/

/-- C1 (failing input): the template `"${context.user.name}"` is split into
the path `["context", "user", "name"]`, whose first segment is looked up in
the instance context itself; with context `{"user": {"name": "Ada"}}` that
lookup raises `KeyError`, so the input resolves to `None` (with a logged
warning) instead of `"Ada"`; with the empty context it also resolves to
`None`. Resolution never raises either way. -/
theorem resolveInputs_context_template_yields_none :
    splitDots ("context.user.name".toList) [] = ["context", "user", "name"] ∧
    resolveInputs [("x", PyVal.str "$\x7bcontext.user.name\x7d")]
        [("user", PyVal.dict [("name", PyVal.str "Ada")])] =
      [("x", PyVal.none)] ∧
    resolveInputs [("x", PyVal.str "$\x7bcontext.user.name\x7d")] [] =
      [("x", PyVal.none)] :=
  ⟨rfl, rfl, rfl⟩

/-! ### C5: transition lookup by status with default fallback -/

/-- C5: when a step's execution returns a result without raising, the next
step is the transition-table entry keyed by the result's `status` with a
`"default"` fallback, and when no transition applies the instance completes
(status `"completed"`, not `"failed"`). Concretely, on the two-step scenario
workflow a `{"status": "success"}` result at `S1` advances to `S2` (both
steps execute), while a `{"status": "error"}` result ends the workflow at
`S1` with status `"completed"`. -/
theorem workflow_transition_default_completion :
    (∀ wf exec now fuel inst sid step r,
      findStep wf sid = some step → sid ≠ "" → exec sid = Except.ok r →
      nextStepId wf sid r = Option.none →
      (runSteps wf exec now (fuel + 1) (some sid) inst).status =
        "completed") ∧
    nextStepId wfScenario "S1" ⟨some "success"⟩ = some "S2" ∧
    nextStepId wfScenario "S1" ⟨some "error"⟩ = Option.none ∧
    (executeWorkflowInstance wfScenario (fun _ => Except.ok ⟨some "success"⟩)
        0 3 "S1" instScenario).status = "completed" ∧
    (executeWorkflowInstance wfScenario (fun _ => Except.ok ⟨some "success"⟩)
        0 3 "S1" instScenario).stepResults.map Prod.fst = ["S1", "S2"] ∧
    (executeWorkflowInstance wfScenario (fun _ => Except.ok ⟨some "error"⟩)
        0 3 "S1" instScenario).status = "completed" ∧
    (executeWorkflowInstance wfScenario (fun _ => Except.ok ⟨some "error"⟩)
        0 3 "S1" instScenario).stepResults.map Prod.fst = ["S1"] := by
  refine ⟨?_, rfl, rfl, rfl, rfl, rfl, rfl⟩
  intro wf exec now fuel inst sid step r hstep hne hexec hnext
  rw [runSteps, if_neg hne, hstep]
  simp only [hexec, hnext]
  cases fuel <;> rw [runSteps] <;> rfl

/-- Closed witness for C5: the general completion conjunct applied to the
scenario workflow at `S2` (which has no transition entry). -/
theorem workflow_transition_default_completion_witness :
    (runSteps wfScenario (fun _ => Except.ok ⟨some "success"⟩) 0 1
      (some "S2") instScenario).status = "completed" :=
  workflow_transition_default_completion.1 wfScenario
    (fun _ => Except.ok ⟨some "success"⟩) 0 0 instScenario "S2"
    ⟨"S2", "step two", Option.none⟩ ⟨some "success"⟩ rfl (by decide) rfl rfl

/-! ### C2: the store stays within capacity (for positive capacities) -/

theorem keysMatch_of_sublist {st st' : AgentMemory}
    (hsub : List.Sublist st'.memories st.memories) (h : keysMatch st) :
    keysMatch st' :=
  fun e he => h e (hsub.subset he)

theorem forget_memories_sublist (st : AgentMemory) (id : Nat) :
    List.Sublist (st.forget id).2.memories st.memories := by
  unfold AgentMemory.forget
  cases h : alookup st.memories id with
  | none => simp [h]
  | some m =>
    simp only [h]
    exact adel_sublist _ _

theorem forget_maxSize (st : AgentMemory) (id : Nat) :
    (st.forget id).2.maxSize = st.maxSize := by
  unfold AgentMemory.forget
  cases h : alookup st.memories id <;> simp [h]

theorem foldForget_memories_sublist (items : List MemoryItem) :
    ∀ st : AgentMemory,
      List.Sublist
        ((items.foldl (fun s m => (s.forget m.id).2) st).memories)
        st.memories := by
  induction items with
  | nil => intro st; exact List.Sublist.refl _
  | cons m rest ih =>
    intro st
    exact (ih _).trans (forget_memories_sublist st m.id)

theorem foldForget_maxSize (items : List MemoryItem) :
    ∀ st : AgentMemory,
      (items.foldl (fun s m => (s.forget m.id).2) st).maxSize = st.maxSize := by
  induction items with
  | nil => intro st; rfl
  | cons m rest ih =>
    intro st
    rw [List.foldl_cons, ih, forget_maxSize]

theorem forgetLI_memories_sublist (st : AgentMemory) :
    List.Sublist st.forgetLeastImportant.memories st.memories := by
  unfold AgentMemory.forgetLeastImportant
  by_cases h : st.memories.isEmpty
  · simp [h]
  · simp only [h, Bool.false_eq_true, if_false]
    exact foldForget_memories_sublist _ st

theorem forgetLI_maxSize (st : AgentMemory) :
    st.forgetLeastImportant.maxSize = st.maxSize := by
  unfold AgentMemory.forgetLeastImportant
  by_cases h : st.memories.isEmpty
  · simp [h]
  · simp only [h, Bool.false_eq_true, if_false]
    exact foldForget_maxSize _ st

theorem alookup_ne_none_of_mem_keys {κ α : Type} [DecidableEq κ]
    {l : List (κ × α)} {k : κ} (h : k ∈ l.map Prod.fst) :
    alookup l k ≠ none := by
  induction l with
  | nil => simp at h
  | cons e rest ih =>
    by_cases he : e.1 = k
    · simp [alookup, he]
    · simp only [List.map_cons, List.mem_cons] at h
      rcases h with h | h
      · exact absurd h.symm he
      · simp only [alookup, if_neg he]
        exact ih h

theorem forget_length_lt (st : AgentMemory) {id : Nat}
    (h : id ∈ st.memories.map Prod.fst) :
    (st.forget id).2.memories.length < st.memories.length := by
  unfold AgentMemory.forget
  cases hl : alookup st.memories id with
  | none => exact absurd hl (alookup_ne_none_of_mem_keys h)
  | some m =>
    simp only [hl]
    exact adel_length_lt h

theorem forgetLI_length_lt (st : AgentMemory) (hkm : keysMatch st)
    (hne : st.memories ≠ []) :
    st.forgetLeastImportant.memories.length < st.memories.length := by
  unfold AgentMemory.forgetLeastImportant
  have hie : ¬(st.memories.isEmpty = true) := by
    simpa [List.isEmpty_iff] using hne
  rw [if_neg hie]
  dsimp only
  generalize hsorted : sortStable
    (fun a b => decide (a.importance ≤ b.importance))
    (st.memories.map Prod.snd) = sorted
  have hperm : sorted.Perm (st.memories.map Prod.snd) := by
    rw [← hsorted]
    exact sortStable_perm _ _
  have hslen : sorted.length = st.memories.length := by
    rw [hperm.length_eq, List.length_map]
  have hsne : sorted ≠ [] := by
    intro h0
    rw [h0] at hslen
    exact hne (List.length_eq_zero.mp hslen.symm)
  obtain ⟨n, hn⟩ : ∃ n, max 1 (st.maxSize * 5 / 100) = n + 1 :=
    ⟨max 1 (st.maxSize * 5 / 100) - 1, by omega⟩
  obtain ⟨m0, tail, hs⟩ : ∃ m0 tail, sorted = m0 :: tail := by
    cases hs : sorted with
    | nil => exact absurd hs hsne
    | cons x xs => exact ⟨x, xs, rfl⟩
  rw [hs, hn, List.take_succ_cons, List.foldl_cons]
  have hm0mem : m0 ∈ st.memories.map Prod.snd :=
    hperm.subset (hs ▸ List.mem_cons_self _ _)
  obtain ⟨e, he, heq⟩ := List.mem_map.mp hm0mem
  have hid : m0.id ∈ st.memories.map Prod.fst := by
    rw [← heq, hkm e he]
    exact List.mem_map_of_mem Prod.fst he
  calc ((tail.take n).foldl (fun s m => (s.forget m.id).2)
          (st.forget m0.id).2).memories.length
      ≤ (st.forget m0.id).2.memories.length :=
        (foldForget_memories_sublist _ _).length_le
    _ < st.memories.length := forget_length_lt st hid

theorem keysMatch_store (st : AgentMemory) (a : StoreArgs)
    (h : keysMatch st) : keysMatch (st.store a).2 := by
  unfold AgentMemory.store
  dsimp only
  intro e he
  rcases mem_aset he with rfl | he'
  · rfl
  · by_cases hc : st.maxSize ≤ st.memories.length
    · rw [if_pos hc] at he'
      exact keysMatch_of_sublist (forgetLI_memories_sublist st) h e he'
    · rw [if_neg hc] at he'
      exact h e he'

theorem store_maxSize (st : AgentMemory) (a : StoreArgs) :
    (st.store a).2.maxSize = st.maxSize := by
  unfold AgentMemory.store
  dsimp only
  by_cases hc : st.maxSize ≤ st.memories.length
  · rw [if_pos hc]
    exact forgetLI_maxSize st
  · rw [if_neg hc]

theorem store_length_le (st : AgentMemory) (a : StoreArgs)
    (hkm : keysMatch st) (hmax : 1 ≤ st.maxSize)
    (hlen : st.memories.length ≤ st.maxSize) :
    (st.store a).2.memories.length ≤ st.maxSize := by
  unfold AgentMemory.store
  dsimp only
  by_cases hc : st.maxSize ≤ st.memories.length
  · rw [if_pos hc]
    have hne : st.memories ≠ [] := by
      intro h0
      rw [h0] at hc
      simp at hc
      omega
    have hlt := forgetLI_length_lt st hkm hne
    have hle := aset_length_le st.forgetLeastImportant.memories
      st.forgetLeastImportant.nextId
      ⟨st.forgetLeastImportant.nextId, a.content, a.source, a.expiration,
        a.importance, a.tags, a.context⟩
    omega
  · rw [if_neg hc]
    have hle := aset_length_le st.memories st.nextId
      ⟨st.nextId, a.content, a.source, a.expiration, a.importance, a.tags,
        a.context⟩
    omega

theorem storeFold_length : ∀ (args : List StoreArgs) (st : AgentMemory),
    keysMatch st → st.memories.length ≤ st.maxSize → 1 ≤ st.maxSize →
    (args.foldl (fun s a => (s.store a).2) st).memories.length ≤
      st.maxSize := by
  intro args
  induction args with
  | nil => intro st _ hlen _; exact hlen
  | cons a rest ih =>
    intro st hkm hlen hmax
    rw [List.foldl_cons]
    have h1 := ih (st.store a).2 (keysMatch_store st a hkm)
      (by rw [store_maxSize]; exact store_length_le st a hkm hmax hlen)
      (by rw [store_maxSize]; exact hmax)
    rwa [store_maxSize] at h1

/-- C2 (counterexample to the unrestricted claim): on an `AgentMemory` of
capacity `0`, a single `store` call leaves one item in the store — the
eviction pass finds the store empty and removes nothing, and the insert then
exceeds the capacity. -/
theorem store_capacity_zero_counterexample :
    ¬(((AgentMemory.emptyMem 0).store
        ⟨PyVal.str "f", "src", 1/2, [], [], Option.none⟩).2.memories.length ≤
      (AgentMemory.emptyMem 0).maxSize) := by
  decide

/-- C2 (amended): for every capacity `max_size ≥ 1` and every sequence of
`store` calls starting from a fresh `AgentMemory`, the number of stored
items stays at most `max_size` after each call — a call that finds the
store at or above capacity first evicts the `max(1, 5% of capacity)`
least-important items before inserting. -/
theorem store_bounded_amended (maxSize : Nat) (h : 1 ≤ maxSize)
    (args : List StoreArgs) :
    (args.foldl (fun s a => (s.store a).2)
      (AgentMemory.emptyMem maxSize)).memories.length ≤ maxSize := by
  refine storeFold_length args (AgentMemory.emptyMem maxSize) ?_ ?_ h
  · intro e he
    simp [AgentMemory.emptyMem] at he
  · simp [AgentMemory.emptyMem]

/-- Closed witness for C2: two stores into a capacity-1 memory leave at most
one item. -/
theorem store_bounded_amended_witness :
    1 ≤ 1 ∧
    (([⟨PyVal.none, "s", 1/2, [], [], Option.none⟩,
       ⟨PyVal.none, "s", 3/4, [], [], Option.none⟩] :
        List StoreArgs).foldl (fun s a => (s.store a).2)
      (AgentMemory.emptyMem 1)).memories.length ≤ 1 :=
  ⟨Nat.le_refl 1, store_bounded_amended 1 (Nat.le_refl 1) _⟩

/-! ### C3 and C4 counterexamples -/

/-- C3 (counterexample): with a single item tagged `"b"`,
`search_by_tags(["a", "b"], require_all=True)` returns that item even though
no item matches the query tag `"a"` — when the accumulated candidate set is
empty (after `"a"` matched nothing) the loop replaces it with the next tag's
matches instead of intersecting. -/
theorem searchByTags_requireAll_counterexample :
    (c3St.searchByTags 0 ["a", "b"] true).1.map MemoryItem.id = [0] ∧
    c3St.tagMatches "a" = [] := by
  constructor <;> rfl

/-- C4 (counterexample): with a single item of context `{a: 1}`,
`search_by_context({a: 1, b: 2})` returns that item although it matches only
one of the two supplied pairs — a non-first pair with no index entry is
silently skipped rather than forcing an empty intersection. -/
theorem searchByContext_partial_match_counterexample :
    (c4St.searchByContext 0 [("a", "1"), ("b", "2")]).1.map MemoryItem.id =
      [0] ∧
    (c4St.searchByContext 0 [("a", "1"), ("b", "2")]).1.map
      MemoryItem.context = [[("a", "1")]] ∧
    ("b", "2") ∉ [(("a" : String), ("1" : String))] := by
  refine ⟨rfl, rfl, ?_⟩
  decide

/-! ### Characterising the search result lists -/

theorem collectResults_fst (now : Nat) : ∀ (ids : List Nat)
    (st : AgentMemory),
    (collectResults now st ids).1 = ids.filterMap (pureRetrieve st now) := by
  intro ids
  induction ids with
  | nil => intro st; rfl
  | cons id rest ih =>
    intro st
    simp only [collectResults]
    cases hl : alookup st.memories id with
    | none =>
      simp only [AgentMemory.retrieve, hl]
      rw [ih st, List.filterMap_cons]
      simp [pureRetrieve, hl]
    | some m =>
      cases hb : m.isExpired now with
      | true =>
        simp only [AgentMemory.retrieve, hl, hb, if_true]
        rw [ih, List.filterMap_cons]
        have hnone : pureRetrieve st now id = Option.none := by
          simp [pureRetrieve, hl, hb]
        rw [hnone]
        have hfun : pureRetrieve { st with memories := adel st.memories id }
            now = pureRetrieve st now := by
          funext j
          by_cases hj : j = id
          · subst hj
            simp [pureRetrieve, alookup_adel_self, hl, hb]
          · simp only [pureRetrieve]
            rw [alookup_adel_ne st.memories hj]
        rw [hfun]
      | false =>
        simp only [AgentMemory.retrieve, hl, hb, Bool.false_eq_true, if_false]
        rw [ih st, List.filterMap_cons]
        have hsome : pureRetrieve st now id = some m := by
          simp [pureRetrieve, hl, hb]
        rw [hsome]

theorem pureRetrieve_some_spec {st : AgentMemory} {now j : Nat}
    {m : MemoryItem} (h : pureRetrieve st now j = some m) :
    alookup st.memories j = some m ∧ m.isExpired now = false := by
  unfold pureRetrieve at h
  cases hl : alookup st.memories j with
  | none => rw [hl] at h; simp at h
  | some m' =>
    rw [hl] at h
    cases hb : m'.isExpired now with
    | true => simp [hb] at h
    | false =>
      simp [hb] at h
      subst h
      exact ⟨rfl, hb⟩

theorem pureRetrieve_some_id {st : AgentMemory} {now j : Nat}
    {m : MemoryItem} (hkm : keysMatch st)
    (h : pureRetrieve st now j = some m) : m.id = j :=
  hkm (j, m) (alookup_mem (pureRetrieve_some_spec h).1)

theorem mem_id_filterMap {st : AgentMemory} {now : Nat}
    (hkm : keysMatch st) (ids : List Nat) (id : Nat) :
    id ∈ (ids.filterMap (pureRetrieve st now)).map MemoryItem.id ↔
      id ∈ ids ∧ (pureRetrieve st now id).isSome := by
  constructor
  · intro h
    obtain ⟨m, hm, hmid⟩ := List.mem_map.mp h
    obtain ⟨j, hj, hpj⟩ := List.mem_filterMap.mp hm
    have hjid : j = id := by rw [← hmid, pureRetrieve_some_id hkm hpj]
    subst hjid
    exact ⟨hj, by rw [hpj]; rfl⟩
  · rintro ⟨hid, hsome⟩
    obtain ⟨m, hm⟩ := Option.isSome_iff_exists.mp hsome
    exact List.mem_map.mpr ⟨m, List.mem_filterMap.mpr ⟨id, hid, hm⟩,
      pureRetrieve_some_id hkm hm⟩

theorem mem_map_sortByImportanceDesc {xs : List MemoryItem} {id : Nat} :
    id ∈ (sortByImportanceDesc xs).map MemoryItem.id ↔
      id ∈ xs.map MemoryItem.id :=
  ((sortStable_perm _ xs).map MemoryItem.id).mem_iff

theorem sortByImportanceDesc_pairwise (xs : List MemoryItem) :
    List.Pairwise (fun a b => b.importance ≤ a.importance)
      (sortByImportanceDesc xs) := by
  have h := sortStable_pairwise
    (fun a b => decide (b.importance ≤ a.importance))
    (fun a b hab => by
      simp only [decide_eq_false_iff_not] at hab
      simpa using le_of_not_le hab)
    (fun a b c h1 h2 => by
      simp only [decide_eq_true_eq] at h1 h2 ⊢
      exact le_trans h2 h1)
    xs
  exact h.imp (fun hab => of_decide_eq_true hab)

/-! ### The tag-candidate fold -/

theorem foldTags_false_mem (st : AgentMemory) :
    ∀ (tags : List String) (cand : List Nat) (id : Nat),
      id ∈ tags.foldl (tagsStep st false) cand ↔
        id ∈ cand ∨ ∃ t ∈ tags, id ∈ st.tagMatches t := by
  intro tags
  induction tags with
  | nil => intro cand id; simp
  | cons t ts ih =>
    intro cand id
    rw [List.foldl_cons, ih]
    by_cases hc : cand.isEmpty
    · have hce : cand = [] := List.isEmpty_iff.mp hc
      subst hce
      simp [tagsStep]
    · simp only [tagsStep, hc, Bool.false_eq_true, if_false, mem_sunion,
        List.mem_cons, exists_eq_or_imp]
      tauto

theorem noMidEmpty_iff (st : AgentMemory) (tags : List String) :
    noMidEmpty st tags = true ↔
      ∀ n, n < tags.length → n ≠ 0 →
        st.tagsCandidates (tags.take n) true ≠ [] := by
  unfold noMidEmpty
  rw [List.all_eq_true]
  constructor
  · intro h n hn h0
    have h1 := h n (List.mem_range.mpr hn)
    simp only [Bool.or_eq_true, beq_iff_eq, Bool.not_eq_true',
      List.isEmpty_eq_false] at h1
    rcases h1 with h1 | h1
    · exact absurd h1 h0
    · exact h1
  · intro h n hn
    rw [List.mem_range] at hn
    by_cases h0 : n = 0
    · simp [h0]
    · simp only [Bool.or_eq_true, beq_iff_eq, Bool.not_eq_true',
        List.isEmpty_eq_false]
      exact Or.inr (h n hn h0)

theorem foldTags_true_subset (st : AgentMemory) :
    ∀ (tags : List String), noMidEmpty st tags = true →
      ∀ id ∈ st.tagsCandidates tags true, ∀ t ∈ tags,
        id ∈ st.tagMatches t := by
  intro tags
  induction tags using List.reverseRecOn with
  | nil =>
    intro _ id hid
    simp [AgentMemory.tagsCandidates] at hid
  | append_singleton ts t ih =>
    intro hmid id hid t' ht'
    have hid' : id ∈ tagsStep st true (st.tagsCandidates ts true) t := by
      rw [AgentMemory.tagsCandidates, List.foldl_append, List.foldl_cons,
        List.foldl_nil] at hid
      exact hid
    by_cases hc : st.tagsCandidates ts true = []
    · have hts : ts = [] := by
        by_contra htsne
        have hlen : 0 < ts.length := List.length_pos.mpr htsne
        have h2 := (noMidEmpty_iff st (ts ++ [t])).mp hmid ts.length
          (by simp) (by omega)
        rw [List.take_left] at h2
        exact h2 hc
      subst hts
      have hm : id ∈ st.tagMatches t := by
        simpa [tagsStep, AgentMemory.tagsCandidates] using hid'
      have ht : t' = t := by simpa using ht'
      rw [ht]
      exact hm
    · have hcne : (st.tagsCandidates ts true).isEmpty = false :=
        List.isEmpty_eq_false.mpr hc
      have hid2 : id ∈ (st.tagsCandidates ts true).filter
          (fun i => decide (i ∈ st.tagMatches t)) := by
        simpa [tagsStep, hcne] using hid'
      rw [List.mem_filter] at hid2
      obtain ⟨hidc, hidm⟩ := hid2
      have hidm' : id ∈ st.tagMatches t := of_decide_eq_true hidm
      rcases List.mem_append.mp ht' with ht1 | ht2
      · have hmid' : noMidEmpty st ts = true := by
          rw [noMidEmpty_iff] at hmid ⊢
          intro n hn h0
          have h2 := hmid n (by simp; omega) h0
          rwa [List.take_append_of_le_length (le_of_lt hn)] at h2
        exact ih hmid' id hidc t' ht1
      · have ht : t' = t := by simpa using ht2
        rw [ht]
        exact hidm'

theorem searchByTags_fst (st : AgentMemory) (now : Nat) (tags : List String)
    (ra : Bool) (h : tags.isEmpty = false) :
    (st.searchByTags now tags ra).1 =
      sortByImportanceDesc
        ((st.tagsCandidates tags ra).filterMap (pureRetrieve st now)) := by
  simp [AgentMemory.searchByTags, h, collectResults_fst]

/-- C3 (amended): with `require_all=True`, `search_by_tags` intersects only
while the accumulated candidate set stays non-empty — under that proviso
every returned item matches every query tag (case-insensitive substring
match against the indexed tags); with `require_all=False` the returned ids
are exactly the union of the per-tag matches, restricted to present,
non-expired items; in both modes the results are sorted by importance
descending. -/
theorem searchByTags_amended (st : AgentMemory) (now : Nat)
    (tags : List String) (hkm : keysMatch st) :
    (noMidEmpty st tags = true →
      ∀ m ∈ (st.searchByTags now tags true).1, ∀ t ∈ tags,
        m.id ∈ st.tagMatches t) ∧
    (∀ id, id ∈ ((st.searchByTags now tags false).1.map MemoryItem.id) ↔
      ((∃ t ∈ tags, id ∈ st.tagMatches t) ∧
        (pureRetrieve st now id).isSome)) ∧
    (∀ requireAll : Bool, List.Pairwise
      (fun a b => b.importance ≤ a.importance)
      (st.searchByTags now tags requireAll).1) := by
  by_cases htags : tags.isEmpty
  · have hte : tags = [] := List.isEmpty_iff.mp htags
    subst hte
    refine ⟨?_, ?_, ?_⟩
    · intro _ m hm
      simp [AgentMemory.searchByTags] at hm
    · intro id
      simp [AgentMemory.searchByTags]
    · intro ra
      simp [AgentMemory.searchByTags]
  · have hne : tags.isEmpty = false := Bool.eq_false_iff.mpr htags
    refine ⟨?_, ?_, ?_⟩
    · intro hmid m hm t ht
      rw [searchByTags_fst st now tags true hne] at hm
      have hm' := mem_sortStable.mp hm
      obtain ⟨j, hj, hpj⟩ := List.mem_filterMap.mp hm'
      rw [pureRetrieve_some_id hkm hpj]
      exact foldTags_true_subset st tags hmid j hj t ht
    · intro id
      rw [searchByTags_fst st now tags false hne,
        mem_map_sortByImportanceDesc, mem_id_filterMap hkm]
      have hcand : id ∈ st.tagsCandidates tags false ↔
          ∃ t ∈ tags, id ∈ st.tagMatches t := by
        rw [AgentMemory.tagsCandidates, foldTags_false_mem]
        simp
      rw [hcand]
    · intro ra
      rw [searchByTags_fst st now tags ra hne]
      exact sortByImportanceDesc_pairwise _

/-- Closed witness for C3 (amended) on the concrete one-item store: the
hypotheses hold and the intersection guarantee applies to the query
`["b"]`. -/
theorem searchByTags_amended_witness :
    keysMatch c3St ∧
    (noMidEmpty c3St ["b"] = true →
      ∀ m ∈ (c3St.searchByTags 0 ["b"] true).1, ∀ t ∈ ["b"],
        m.id ∈ c3St.tagMatches t) :=
  ⟨by unfold keysMatch; decide,
    (searchByTags_amended c3St 0 ["b"] (by unfold keysMatch; decide)).1⟩

/-! ### The context-candidate fold -/

theorem foldCtx_mem (st : AgentMemory) :
    ∀ (rest : List (String × String)) (cand : List Nat) (id : Nat),
      id ∈ rest.foldl (contextStep st) cand ↔
        (id ∈ cand ∧ ∀ kv ∈ rest, ∀ ids,
          alookup st.contextIndex (contextKey kv) = some ids → id ∈ ids) := by
  intro rest
  induction rest with
  | nil => intro cand id; simp
  | cons kv rest' ih =>
    intro cand id
    rw [List.foldl_cons, ih]
    cases hl : alookup st.contextIndex (contextKey kv) with
    | some ids =>
      simp only [contextStep, hl, List.mem_filter, decide_eq_true_eq,
        List.forall_mem_cons, Option.some.injEq]
      constructor
      · rintro ⟨⟨h1, h2⟩, h3⟩
        exact ⟨h1, fun ids' hids' => hids' ▸ h2, h3⟩
      · rintro ⟨h1, h2, h3⟩
        exact ⟨⟨h1, h2 ids rfl⟩, h3⟩
    | none =>
      simp only [contextStep, hl, List.forall_mem_cons]
      constructor
      · rintro ⟨h1, h2⟩
        refine ⟨h1, ?_, h2⟩
        intro ids hids
        exact absurd hids (by simp)
      · rintro ⟨h1, _, h2⟩
        exact ⟨h1, h2⟩

/-- C4 (amended): `search_by_context` with an empty query returns nothing;
when the first supplied pair has no index entry it returns nothing; and
otherwise it returns exactly the present, non-expired items lying in the
first pair's index entry and in every further supplied pair's index entry —
pairs without an index entry are skipped rather than forcing an empty
result. -/
theorem searchByContext_amended (st : AgentMemory) (now : Nat)
    (hkm : keysMatch st) :
    ((st.searchByContext now []).1 = []) ∧
    (∀ kv rest, alookup st.contextIndex (contextKey kv) = Option.none →
      (st.searchByContext now (kv :: rest)).1 = []) ∧
    (∀ kv rest ids0, alookup st.contextIndex (contextKey kv) = some ids0 →
      ∀ id, id ∈ (st.searchByContext now (kv :: rest)).1.map
          MemoryItem.id ↔
        (id ∈ ids0 ∧
          (∀ kv' ∈ rest, ∀ ids,
            alookup st.contextIndex (contextKey kv') = some ids →
              id ∈ ids) ∧
          (pureRetrieve st now id).isSome)) := by
  refine ⟨rfl, ?_, ?_⟩
  · intro kv rest h
    simp [AgentMemory.searchByContext, h]
  · intro kv rest ids0 h id
    have hfst : (st.searchByContext now (kv :: rest)).1 =
        sortByImportanceDesc ((rest.foldl (contextStep st) ids0).filterMap
          (pureRetrieve st now)) := by
      simp [AgentMemory.searchByContext, h, collectResults_fst]
    rw [hfst, mem_map_sortByImportanceDesc, mem_id_filterMap hkm,
      foldCtx_mem]
    tauto

/-- Closed witness for C4 (amended) on the concrete one-item store, for the
query `{a: 1}`. -/
theorem searchByContext_amended_witness :
    keysMatch c4St ∧
    alookup c4St.contextIndex (contextKey ("a", "1")) = some [0] ∧
    (∀ id, id ∈ (c4St.searchByContext 0 [("a", "1")]).1.map MemoryItem.id ↔
      (id ∈ [0] ∧
        (∀ kv' ∈ ([] : List (String × String)), ∀ ids,
          alookup c4St.contextIndex (contextKey kv') = some ids →
            id ∈ ids) ∧
        (pureRetrieve c4St 0 id).isSome)) :=
  ⟨by unfold keysMatch; decide, rfl,
    (searchByContext_amended c4St 0
      (by unfold keysMatch; decide)).2.2 ("a", "1") [] [0] rfl⟩

/-! ### C6: role-evaluation confidence bounds -/

theorem actual_nonneg {agent : AgentModel}
    (hA : ∀ p ∈ agent.skills, 0 ≤ p.2) (s : String) :
    0 ≤ (alookup agent.skills s).getD 0 := by
  cases hl : alookup agent.skills s with
  | none => simp
  | some v => simpa using hA (s, v) (alookup_mem hl)

theorem matchQuality_nonneg {minP actual : ℚ} (hmin : 0 ≤ minP)
    (hact : 0 ≤ actual) : 0 ≤ matchQuality minP actual := by
  unfold matchQuality
  have hden : 0 < (if minP = 0 then (1 : ℚ)/10 else minP) := by
    by_cases h : minP = 0
    · rw [if_pos h]
      norm_num
    · rw [if_neg h]
      exact lt_of_le_of_ne hmin (Ne.symm h)
  exact le_min zero_le_one (div_nonneg hact hden.le)

theorem foldE_bounds {agent : AgentModel}
    (hA : ∀ p ∈ agent.skills, 0 ≤ p.2) :
    ∀ (skills : List (String × ℚ)), (∀ p ∈ skills, 0 ≤ p.2) →
    ∀ acc : EvalAcc,
      acc.totalMatchScore ≤
        (skills.foldl (evalSkillStep agent) acc).totalMatchScore ∧
      (skills.foldl (evalSkillStep agent) acc).totalMatchScore +
          ((skills.foldl (evalSkillStep agent) acc).missingSkills.length : ℚ)
        ≤ acc.totalMatchScore + (acc.missingSkills.length : ℚ) +
          (skills.length : ℚ) := by
  intro skills
  induction skills with
  | nil => intro _ acc; simp
  | cons sk rest ih =>
    intro hR acc
    have hRrest : ∀ p ∈ rest, 0 ≤ p.2 :=
      fun p hp => hR p (List.mem_cons_of_mem _ hp)
    have hRsk : 0 ≤ sk.2 := hR sk (List.mem_cons_self _ _)
    rw [List.foldl_cons]
    obtain ⟨ih1, ih2⟩ := ih hRrest (evalSkillStep agent acc sk)
    by_cases hlt : (alookup agent.skills sk.1).getD 0 < sk.2
    · have hT : (evalSkillStep agent acc sk).totalMatchScore =
          acc.totalMatchScore := by
        simp only [evalSkillStep, hlt, if_true]
      have hM : (evalSkillStep agent acc sk).missingSkills.length =
          acc.missingSkills.length + 1 := by
        simp only [evalSkillStep, hlt, if_true, List.length_append,
          List.length_cons, List.length_nil]
      rw [hT] at ih1 ih2
      rw [hM] at ih2
      constructor
      · exact ih1
      · simp only [List.length_cons]
        push_cast at ih2 ⊢
        linarith
    · have hT : (evalSkillStep agent acc sk).totalMatchScore =
          acc.totalMatchScore +
            matchQuality sk.2 ((alookup agent.skills sk.1).getD 0) := by
        simp only [evalSkillStep, hlt, if_false]
      have hM : (evalSkillStep agent acc sk).missingSkills.length =
          acc.missingSkills.length := by
        simp only [evalSkillStep, hlt, if_false]
      rw [hT] at ih1 ih2
      rw [hM] at ih2
      have hmq0 : 0 ≤ matchQuality sk.2 ((alookup agent.skills sk.1).getD 0) :=
        matchQuality_nonneg hRsk (actual_nonneg hA sk.1)
      have hmq1 : matchQuality sk.2 ((alookup agent.skills sk.1).getD 0) ≤ 1 :=
        min_le_left _ _
      constructor
      · linarith
      · simp only [List.length_cons]
        push_cast at ih2 ⊢
        linarith

theorem foldE_all_missing {agent : AgentModel} :
    ∀ (skills : List (String × ℚ)) (acc : EvalAcc),
      (∀ sk ∈ skills, (alookup agent.skills sk.1).getD 0 < sk.2) →
      (skills.foldl (evalSkillStep agent) acc).totalMatchScore =
        acc.totalMatchScore := by
  intro skills
  induction skills with
  | nil => intro acc _; rfl
  | cons sk rest ih =>
    intro acc hmiss
    rw [List.foldl_cons,
      ih _ (fun s hs => hmiss s (List.mem_cons_of_mem _ hs))]
    have h1 : (alookup agent.skills sk.1).getD 0 < sk.2 :=
      hmiss sk (List.mem_cons_self _ _)
    simp only [evalSkillStep, h1, if_true]

/-- C6: under the capability contract (proficiencies and required minimums
are non-negative), the confidence computed by `evaluate_agent_for_role`
always lies in `[0, 1]`; it equals `0` whenever every required skill is
below its minimum; and a zero minimum is replaced by `0.1` in the
match-quality quotient. -/
theorem evaluate_confidence_bounds (agent : AgentModel)
    (req : RoleRequirement) (hA : ∀ p ∈ agent.skills, 0 ≤ p.2)
    (hR : ∀ p ∈ req.skills, 0 ≤ p.2) :
    (0 ≤ (evaluateAgentForRole agent req).confidence ∧
      (evaluateAgentForRole agent req).confidence ≤ 1) ∧
    ((∀ sk ∈ req.skills, (alookup agent.skills sk.1).getD 0 < sk.2) →
      (evaluateAgentForRole agent req).confidence = 0) ∧
    (∀ actual : ℚ, matchQuality 0 actual = min 1 (actual / (1/10))) := by
  have hfold := foldE_bounds hA req.skills hR ⟨[], [], 0⟩
  obtain ⟨hT0, hTM⟩ := hfold
  dsimp only at hT0 hTM
  rw [List.length_nil] at hTM
  push_cast at hTM
  refine ⟨?_, ?_, ?_⟩
  · unfold evaluateAgentForRole
    dsimp only
    by_cases hzero : req.skills.length = 0
    · rw [if_pos hzero]
      norm_num
    · rw [if_neg hzero]
      have hnpos : (0 : ℚ) < req.skills.length :=
        Nat.cast_pos.mpr (Nat.pos_of_ne_zero hzero)
      set T := (req.skills.foldl (evalSkillStep agent)
        ⟨[], [], 0⟩).totalMatchScore with hT
      set M := ((req.skills.foldl (evalSkillStep agent)
        ⟨[], [], 0⟩).missingSkills.length : ℚ) with hM
      have hM0 : (0 : ℚ) ≤ M := Nat.cast_nonneg _
      have hc00 : 0 ≤ T / (req.skills.length : ℚ) :=
        div_nonneg (by linarith) hnpos.le
      have hc01 : T / (req.skills.length : ℚ) ≤ 1 := by
        rw [div_le_one hnpos]
        linarith
      have hMn : M / (req.skills.length : ℚ) ≤ 1 := by
        rw [div_le_one hnpos]
        linarith
      have hMn0 : 0 ≤ M / (req.skills.length : ℚ) :=
        div_nonneg hM0 hnpos.le
      have hf0 : (0 : ℚ) ≤ 1 - M / (req.skills.length : ℚ) * (1/2) := by
        linarith
      have hf1 : 1 - M / (req.skills.length : ℚ) * (1/2) ≤ 1 := by
        linarith
      set pw := ((4 : ℚ)/5) ^
        (req.permissions.filter
          (fun p => decide (p ∉ agent.permissions))).length with hpw
      have hpow0 : (0 : ℚ) ≤ pw := by positivity
      have hpow1 : pw ≤ 1 := pow_le_one₀ (by norm_num) (by norm_num)
      have hq1 : 0 ≤ T / (req.skills.length : ℚ) *
          (1 - M / (req.skills.length : ℚ) * (1/2)) :=
        mul_nonneg hc00 hf0
      have hq2 : T / (req.skills.length : ℚ) *
          (1 - M / (req.skills.length : ℚ) * (1/2)) ≤ 1 := by
        calc T / (req.skills.length : ℚ) *
            (1 - M / (req.skills.length : ℚ) * (1/2))
            ≤ 1 * 1 := mul_le_mul hc01 hf1 hf0 zero_le_one
          _ = 1 := one_mul 1
      have hq3 : 0 ≤ T / (req.skills.length : ℚ) * pw :=
        mul_nonneg hc00 hpow0
      have hq4 : T / (req.skills.length : ℚ) * pw ≤ 1 := by
        calc T / (req.skills.length : ℚ) * pw
            ≤ 1 * 1 := mul_le_mul hc01 hpow1 hpow0 zero_le_one
          _ = 1 := one_mul 1
      have hq5 : 0 ≤ T / (req.skills.length : ℚ) *
          (1 - M / (req.skills.length : ℚ) * (1/2)) * pw :=
        mul_nonneg hq1 hpow0
      have hq6 : T / (req.skills.length : ℚ) *
          (1 - M / (req.skills.length : ℚ) * (1/2)) * pw ≤ 1 := by
        calc T / (req.skills.length : ℚ) *
            (1 - M / (req.skills.length : ℚ) * (1/2)) * pw
            ≤ 1 * 1 := mul_le_mul hq2 hpow1 hpow0 zero_le_one
          _ = 1 := one_mul 1
      split_ifs
      all_goals first
        | exact ⟨hc00, hc01⟩
        | exact ⟨hq1, hq2⟩
        | exact ⟨hq3, hq4⟩
        | exact ⟨hq5, hq6⟩
  · intro hmiss
    have hT := foldE_all_missing req.skills ⟨[], [], 0⟩ hmiss
    dsimp only at hT
    unfold evaluateAgentForRole
    dsimp only
    rw [hT]
    split_ifs <;> simp
  · intro actual
    simp [matchQuality]

/-- Closed witness for C6: a role requiring `writing ≥ 1` and an agent with
`writing = 1` and no permissions — the confidence is in `[0, 1]`. -/
theorem evaluate_confidence_bounds_witness :
    (∀ p ∈ [(("writing" : String), (1 : ℚ))], 0 ≤ p.2) ∧
    (0 ≤ (evaluateAgentForRole ⟨"a1", [("writing", 1)], []⟩
        ⟨[("writing", 1)], []⟩).confidence ∧
      (evaluateAgentForRole ⟨"a1", [("writing", 1)], []⟩
        ⟨[("writing", 1)], []⟩).confidence ≤ 1) :=
  ⟨by decide, (evaluate_confidence_bounds ⟨"a1", [("writing", 1)], []⟩
    ⟨[("writing", 1)], []⟩ (by decide) (by decide)).1⟩

/-! ### C7: publish fans out to all subscribers but the sender -/

theorem wellFormed_iff (bus : MessageBus) :
    bus.wellFormed = true ↔
      ((∀ e ∈ bus.channels, e.1 < bus.nextChannelId) ∧
        (∀ e ∈ bus.directChannels, ∃ ch,
          alookup bus.channels e.2 = some ch ∧
            e.1 = sortPair ch.agentA ch.agentB)) := by
  unfold MessageBus.wellFormed
  rw [Bool.and_eq_true, List.all_eq_true, List.all_eq_true]
  constructor
  · rintro ⟨h1, h2⟩
    refine ⟨fun e he => of_decide_eq_true (h1 e he), fun e he => ?_⟩
    have h3 := h2 e he
    cases hl : alookup bus.channels e.2 with
    | none => rw [hl] at h3; simp at h3
    | some ch =>
      rw [hl] at h3
      simp only at h3
      exact ⟨ch, rfl, of_decide_eq_true h3⟩
  · rintro ⟨h1, h2⟩
    refine ⟨fun e he => decide_eq_true (h1 e he), fun e he => ?_⟩
    obtain ⟨ch, hch, hkey⟩ := h2 e he
    rw [hch]
    simpa using hkey

theorem getOrCreate_ok (bus : MessageBus) (a b : String)
    (h : bus.wellFormed = true) :
    ∃ ch : Channel,
      alookup (bus.getOrCreateChannel a b).2.channels
          (bus.getOrCreateChannel a b).1 = some ch ∧
      (a = ch.agentA ∨ a = ch.agentB) ∧ (b = ch.agentA ∨ b = ch.agentB) ∧
      (bus.getOrCreateChannel a b).2.wellFormed = true ∧
      (bus.getOrCreateChannel a b).2.topicChannels = bus.topicChannels ∧
      (bus.getOrCreateChannel a b).2.topicCallbacks = bus.topicCallbacks := by
  rw [wellFormed_iff] at h
  obtain ⟨hfresh, hdir⟩ := h
  unfold MessageBus.getOrCreateChannel
  dsimp only
  cases hl : alookup bus.directChannels (sortPair a b) with
  | some cid =>
    simp only [hl]
    obtain ⟨ch, hch, hkey⟩ := hdir (sortPair a b, cid) (alookup_mem hl)
    simp only at hch hkey
    have hmem := mem_of_sortPair_eq hkey
    exact ⟨ch, hch, hmem.1, hmem.2,
      by rw [wellFormed_iff]; exact ⟨hfresh, hdir⟩, trivial, trivial⟩
  | none =>
    simp only [hl]
    refine ⟨⟨bus.nextChannelId, a, b, [], []⟩, alookup_aset_self _ _ _,
      Or.inl rfl, Or.inr rfl, ?_, trivial, trivial⟩
    rw [wellFormed_iff]
    constructor
    · intro e he
      rcases mem_aset he with rfl | he'
      · simp
      · have := hfresh e he'
        simp only
        omega
    · intro e he
      rcases mem_aset he with rfl | he'
      · exact ⟨⟨bus.nextChannelId, a, b, [], []⟩,
          alookup_aset_self _ _ _, rfl⟩
      · obtain ⟨ch', hch', hkey'⟩ := hdir e he'
        have hne : e.2 ≠ bus.nextChannelId := by
          have := hfresh (e.2, ch') (alookup_mem hch')
          simp only at this
          omega
        refine ⟨ch', ?_, hkey'⟩
        simp only
        rw [alookup_aset_ne _ _ hne]
        exact hch'

theorem sendOnChannel_ok (bus : MessageBus) (cid : Nat) (s r mt : String)
    (ct : PyVal) (ch : Channel) (hch : alookup bus.channels cid = some ch)
    (hs : s = ch.agentA ∨ s = ch.agentB) (hr : r = ch.agentA ∨ r = ch.agentB)
    (hwf : bus.wellFormed = true) :
    ∃ trace bus',
      bus.sendOnChannel cid s r mt ct =
        Except.ok (bus.nextMessageId, trace, bus') ∧
      bus'.wellFormed = true ∧ bus'.topicChannels = bus.topicChannels ∧
      bus'.topicCallbacks = bus.topicCallbacks := by
  unfold MessageBus.sendOnChannel
  rw [hch]
  dsimp only
  rw [if_pos ⟨hs, hr⟩]
  refine ⟨_, _, rfl, ?_, rfl, rfl⟩
  rw [wellFormed_iff] at hwf ⊢
  obtain ⟨hfresh, hdir⟩ := hwf
  constructor
  · intro e he
    rcases mem_aset he with rfl | he'
    · simpa using hfresh (cid, ch) (alookup_mem hch)
    · exact hfresh e he'
  · intro e he
    obtain ⟨ch', hch', hkey'⟩ := hdir e he
    by_cases hcid : e.2 = cid
    · rw [hcid] at hch'
      rw [hch] at hch'
      injection hch' with hch'
      refine ⟨{ ch with history := ch.history ++
          [⟨bus.nextMessageId, s, r, mt, ct⟩] }, ?_, ?_⟩
      · simp only
        rw [hcid]
        exact alookup_aset_self _ _ _
      · rw [hkey', ← hch']
    · refine ⟨ch', ?_, hkey'⟩
      simp only
      rw [alookup_aset_ne _ _ hcid]
      exact hch'

theorem fanOut_ok (s mt : String) (ct : PyVal) :
    ∀ (subs : List String) (bus : MessageBus), bus.wellFormed = true →
    ∃ msgs trace bus',
      MessageBus.fanOut s mt ct bus subs = Except.ok (msgs, trace, bus') ∧
      msgs.map Message.recipientId =
        subs.filter (fun r => decide (r ≠ s)) ∧
      (∀ m ∈ msgs, m.senderId = s ∧ m.msgType = mt) ∧
      bus'.wellFormed = true ∧
      bus'.topicChannels = bus.topicChannels ∧
      bus'.topicCallbacks = bus.topicCallbacks := by
  intro subs
  induction subs with
  | nil =>
    intro bus h
    exact ⟨[], [], bus, rfl, rfl, by simp, h, rfl, rfl⟩
  | cons r rest ih =>
    intro bus h
    by_cases hr : r = s
    · obtain ⟨msgs, trace, bus', heq, hmap, hsnd, hwf, htc, hcb⟩ := ih bus h
      refine ⟨msgs, trace, bus', ?_, ?_, hsnd, hwf, htc, hcb⟩
      · simp only [MessageBus.fanOut, if_pos hr]
        exact heq
      · simpa [List.filter_cons, hr] using hmap
    · rcases hgoc : bus.getOrCreateChannel s r with ⟨cid0, bus1⟩
      obtain ⟨ch, hch, hsm, hrm, hwf1, htc1, hcb1⟩ := getOrCreate_ok bus s r h
      rw [hgoc] at hch hwf1 htc1 hcb1
      simp only at hch hwf1 htc1 hcb1
      obtain ⟨trace0, bus2, hsend, hwf2, htc2, hcb2⟩ :=
        sendOnChannel_ok bus1 cid0 s r mt ct ch hch hsm hrm hwf1
      obtain ⟨msgs, trace, bus3, heq, hmap, hsnd, hwf3, htc3, hcb3⟩ :=
        ih bus2 hwf2
      refine ⟨⟨bus1.nextMessageId, s, r, mt, ct⟩ :: msgs, trace0 ++ trace,
        bus3, ?_, ?_, ?_, hwf3, ?_, ?_⟩
      · simp only [MessageBus.fanOut, if_neg hr, hgoc, hsend, heq]
      · simp [List.filter_cons, hr, hmap]
      · intro m hm
        rcases List.mem_cons.mp hm with rfl | hm'
        · exact ⟨rfl, rfl⟩
        · exact hsnd m hm'
      · rw [htc3, htc2, htc1]
      · rw [hcb3, hcb2, hcb1]

/-- C7: publishing to a topic whose subscriber list is `[A, B, C]` with
sender `A` sends exactly two messages — one to `B` and one to `C`, none to
`A` — and invokes every callback registered for the topic exactly once,
with the synthetic recipient id `"topic:<name>"`. -/
theorem publish_fanout_and_topic_callbacks (bus : MessageBus)
    (h : bus.wellFormed = true) (topic A B C mt : String) (ct : PyVal)
    (hsubs : alookup bus.topicChannels topic = some [A, B, C])
    (hB : B ≠ A) (hC : C ≠ A) :
    ∃ res : PublishResult,
      bus.publish A topic mt ct = Except.ok res ∧
      res.messageIds.length = 2 ∧
      res.sent.map Message.recipientId = [B, C] ∧
      (∀ m ∈ res.sent, m.senderId = A) ∧
      res.topicCbCalls.map Prod.fst =
        (alookup bus.topicCallbacks topic).getD [] ∧
      (∀ p ∈ res.topicCbCalls, p.2.recipientId = "topic:" ++ topic) := by
  obtain ⟨msgs, trace, bus', heq, hmap, hsnd, hwf', htc', hcb'⟩ :=
    fanOut_ok A mt ct [A, B, C] bus h
  have hfilter : ([A, B, C].filter (fun r => decide (r ≠ A))) = [B, C] := by
    simp [hB, hC]
  rw [hfilter] at hmap
  have hlen : msgs.length = 2 := by
    have := congrArg List.length hmap
    simpa using this
  cases hcb : alookup bus.topicCallbacks topic with
  | some cbs =>
    refine ⟨⟨msgs.map Message.id, msgs, trace,
      cbs.map (fun c => (c, ⟨bus'.nextMessageId, A, "topic:" ++ topic,
        mt, ct⟩)),
      { bus' with nextMessageId := bus'.nextMessageId + 1 }⟩,
      ?_, ?_, hmap, ?_, ?_, ?_⟩
    · simp only [MessageBus.publish, hsubs, heq, hcb', hcb]
    · simpa using hlen
    · intro m hm
      exact (hsnd m hm).1
    · dsimp only
      rw [List.map_map]
      have hcomp : (Prod.fst ∘ fun c : Nat =>
          (c, (⟨bus'.nextMessageId, A, "topic:" ++ topic, mt, ct⟩ :
            Message))) = id := rfl
      rw [hcomp, List.map_id]
      rfl
    · intro p hp
      obtain ⟨c, _, hcp⟩ := List.mem_map.mp hp
      rw [← hcp]
  | none =>
    refine ⟨⟨msgs.map Message.id, msgs, trace, [], bus'⟩,
      ?_, ?_, hmap, ?_, ?_, ?_⟩
    · simp only [MessageBus.publish, hsubs, heq, hcb', hcb]
    · simpa using hlen
    · intro m hm
      exact (hsnd m hm).1
    · simp [hcb]
    · intro p hp
      simp at hp

/-- Closed witness for C7: a concrete bus with subscribers `[a, b, c]` on
topic `t` and one topic callback. -/
theorem publish_fanout_and_topic_callbacks_witness :
    c7Bus.wellFormed = true ∧
    alookup c7Bus.topicChannels "t" = some ["a", "b", "c"] ∧
    ∃ res : PublishResult,
      c7Bus.publish "a" "t" "notice" PyVal.none = Except.ok res ∧
      res.messageIds.length = 2 ∧
      res.sent.map Message.recipientId = ["b", "c"] ∧
      (∀ m ∈ res.sent, m.senderId = "a") ∧
      res.topicCbCalls.map Prod.fst =
        (alookup c7Bus.topicCallbacks "t").getD [] ∧
      (∀ p ∈ res.topicCbCalls, p.2.recipientId = "topic:" ++ "t") :=
  ⟨by decide, rfl,
    publish_fanout_and_topic_callbacks c7Bus (by decide) "t" "a" "b" "c"
      "notice" PyVal.none rfl (by decide) (by decide)⟩

end Empire
